import Mathlib

/-!
Shallow embedding of the brain-tumor classifier's own code
(`src/utils.py` and `src/streamlit_app_new.py`), together with the
theorems settling the specification claims about it.

Machine floats are modelled by real numbers; numpy arrays by Lean
lists; Python exceptions by `Except String`.
-/

namespace BrainTumor

/-- `LABELS` from utils.py line 15 (identical in streamlit_app_new.py line 20). -/
def LABELS : List String := ["glioma", "meningioma", "notumor", "pituitary"]

/-- numpy's default relative tolerance for `np.allclose` (1e-5). -/
def np_rtol : ℝ := 0.00001

/-- The absolute tolerance passed at utils.py line 70: `atol=1e-3`. -/
def np_atol : ℝ := 0.001

/-- The effective tolerance of `np.allclose(s, 1.0, atol=1e-3)`:
numpy checks `|a - b| <= atol + rtol * |b|` with `b = 1.0`. -/
def allcloseTol : ℝ := np_atol + np_rtol * |(1 : ℝ)|

/-- `np.allclose(s, 1.0, atol=1e-3)` (utils.py line 70) on scalars. -/
def np_allclose_one (s : ℝ) : Prop := |s - 1| ≤ allcloseTol

/-- The guard of the renormalization branch, utils.py line 70:
`not np.allclose(probs.sum(), 1.0, atol=1e-3) or np.any(probs < 0)`. -/
def shouldNormalize (p : List ℝ) : Prop :=
  ¬ np_allclose_one p.sum ∨ ∃ x ∈ p, x < 0

noncomputable instance shouldNormalizeDec (p : List ℝ) : Decidable (shouldNormalize p) := by
  unfold shouldNormalize np_allclose_one
  infer_instance

/-- `np.max` on a non-empty vector (maximum of all entries);
the empty case is junk, guarded separately like numpy's zero-size error. -/
def maxVal : List ℝ → ℝ
  | [] => 0
  | x :: xs => xs.foldl max x

/-- numpy's error for `np.max` on a zero-size array. -/
def zeroSizeMsg : String :=
  "zero-size array to reduction operation maximum which has no identity"

/-- utils.py lines 72-73: `e = np.exp(probs - np.max(probs)); probs = e / e.sum()`
(the numerically stable softmax: subtract the maximum before exponentiating). -/
noncomputable def softmax (p : List ℝ) : List ℝ :=
  let e := p.map fun x => Real.exp (x - maxVal p)
  e.map fun y => y / e.sum

/-- The renormalization branch body: `np.max` raises on a zero-size array,
otherwise the stable softmax is taken. -/
noncomputable def normalizeStep (p : List ℝ) : Except String (List ℝ) :=
  if p.isEmpty then .error zeroSizeMsg else .ok (softmax p)

/-- The `ValueError` message of utils.py lines 76-79. -/
def mismatchMsg (n : ℕ) : String :=
  "Label length (" ++ toString LABELS.length ++ ") != model outputs (" ++ toString n ++
    "). Ensure LABELS order matches the training class order."

/-- `np.argmax` as the one-pass loop that replaces the running best only on a
strictly larger value: `bi`/`bv` are the best index and value so far, `i` the
index of the head of the remaining list. -/
noncomputable def argmaxAux : ℕ → ℝ → ℕ → List ℝ → ℕ
  | bi, _, _, [] => bi
  | bi, bv, i, x :: xs => if bv < x then argmaxAux i x (i + 1) xs else argmaxAux bi bv (i + 1) xs

/-- `np.argmax`: index of the first occurrence of the maximum
(numpy: "In case of multiple occurrences of the maximum values, the indices
corresponding to the first occurrence are returned"). Junk 0 on empty input. -/
noncomputable def argmax : List ℝ → ℕ
  | [] => 0
  | x :: xs => argmaxAux 0 x 1 xs

/-- `postprocess_prediction` from utils.py lines 56-84 on a 1-D prediction
vector (`probs = pred[0]`): conditionally renormalize (lines 70-73), then
validate the length against `LABELS` (lines 75-79), then take the argmax
label and its confidence (lines 81-84). -/
noncomputable def postprocess_prediction (p : List ℝ) : Except String (String × ℝ × List ℝ) :=
  (if shouldNormalize p then normalizeStep p else Except.ok p).bind fun probs =>
    if LABELS.length ≠ probs.length then
      .error (mismatchMsg probs.length)
    else
      .ok (LABELS.getD (argmax probs) "", probs.getD (argmax probs) 0, probs)

/-- The vector `postprocess_prediction` ends up working on:
`softmax p` when the guard fires, `p` unchanged otherwise. -/
noncomputable def probsOf (p : List ℝ) : List ℝ :=
  if shouldNormalize p then softmax p else p

/-- Modelled from the spec: "a valid probability distribution (sum ≈ 1, all
non-negative)" (spec §4.2), with "≈" read at the code's allclose tolerance.
Used only to compare the spec's wording with the code's guard in C3. -/
def isValidProbDistSpec (p : List ℝ) : Prop :=
  np_allclose_one p.sum ∧ ∀ x ∈ p, 0 ≤ x

/-- `_postprocess` from streamlit_app_new.py lines 135-140 on the row
`probs = pred[0]`: no renormalization and no length validation, just
`top_idx = np.argmax(probs)`, `conf_map = {LABELS[i]: probs[i] for i in
range(len(LABELS))}` and `LABELS[top_idx]`. Python raises IndexError when
`probs[i]` or `LABELS[top_idx]` is out of range, and `np.argmax` raises on an
empty row; those failure points are kept in source order. -/
noncomputable def app_postprocess (p : List ℝ) : Except String (String × List (String × ℝ)) :=
  if p.isEmpty then .error "attempt to get argmax of an empty sequence"
  else if p.length < LABELS.length then .error "IndexError: index out of range"
  else if LABELS.length ≤ argmax p then .error "IndexError: list index out of range"
  else
    .ok (LABELS.getD (argmax p) "",
      (List.range LABELS.length).map fun i => (LABELS.getD i "", p.getD i 0))

/-- A numpy ndarray: a shape together with the row-major data, whose length
is the product of the dimensions. -/
structure NdArray where
  shape : List ℕ
  data : List ℝ
  size_eq : data.length = shape.prod

/-- `pred.reshape(1, -1)` (utils.py line 65). -/
def reshapeRow (a : NdArray) : NdArray :=
  ⟨[1, a.data.length], a.data, by simp⟩

/-- `pred[0]` on a `(1, C)`-shaped array: the first `C` data entries. -/
def ndRow (b : NdArray) : List ℝ := b.data.take (b.shape.getD 1 0)

/-- `postprocess_prediction` on an arbitrary ndarray, utils.py lines 62-67:
coerce to shape `(1, C)` unless `pred.ndim == 2 and pred.shape[0] == 1`
already, then work on the row `pred[0]`. -/
noncomputable def postprocess_prediction_nd (a : NdArray) :
    Except String (String × ℝ × List ℝ) :=
  postprocess_prediction
    (ndRow (if a.shape.length ≠ 2 ∨ a.shape.headD 0 ≠ 1 then reshapeRow a else a))

/-- An RGB pixel (channel values as reals; `img.convert("RGB")` output). -/
structure RGB where
  r : ℝ
  g : ℝ
  b : ℝ

/-- A decoded raster image of arbitrary resolution. -/
structure Img where
  width : ℕ
  height : ℕ
  pixel : ℕ → ℕ → RGB

/-- PIL resampling filters relevant here. -/
inductive Interp
  | nearest
  | bilinear
  | bicubic
deriving DecidableEq

/-- `IMG_SIZE = (224, 224)` from utils.py line 16. -/
def IMG_SIZE : ℕ × ℕ := (224, 224)

/-- `IMAGE_SIZE = (224, 224)` from streamlit_app_new.py line 23. -/
def IMAGE_SIZE : ℕ × ℕ := (224, 224)

/-- The resampling filter passed at utils.py line 50:
`resample=Image.BILINEAR`. -/
def preprocessResample : Interp := .bilinear

/-- The resampling filter of the resize call at streamlit_app_new.py line 128:
`img_pil.convert("RGB").resize(IMAGE_SIZE)` passes no `resample` argument, so
PIL's documented default for non-palette images applies (`Resampling.BICUBIC`
since Pillow 2.7; never bilinear in any Pillow version). -/
def appResample : Interp := .bicubic

/-- `PIL.Image.resize`: a new image of the requested size whose pixels are
produced by the chosen resampling filter. The filter kernels live inside the
external imaging library, so the per-filter pixel computation is an explicit
`sampler` argument; size and filter of each call come from this repository. -/
def resize (sampler : Interp → Img → ℕ × ℕ → ℕ → ℕ → RGB) (img : Img)
    (size : ℕ × ℕ) (flt : Interp) : Img :=
  ⟨size.1, size.2, fun x y => sampler flt img size x y⟩

/-- The channel axis of `np.asarray(img)` for one RGB pixel. -/
def pixelChannels (c : RGB) : List ℝ := [c.r, c.g, c.b]

/-- `np.asarray(img, dtype=np.float32)`: an `(height, width, 3)` array. -/
def imgToArr (img : Img) : List (List (List ℝ)) :=
  (List.range img.height).map fun y =>
    (List.range img.width).map fun x => pixelChannels (img.pixel x y)

/-- The ImageNet channel means subtracted by VGG16 `preprocess_input`
(caffe mode), in BGR order. -/
def vggMeans : List ℝ := [103.939, 116.779, 123.68]

/-- `preprocess_input` on the channel axis: flip RGB to BGR and subtract the
per-channel means. -/
def vggChannel (c : List ℝ) : List ℝ := c.reverse.zipWith (· - ·) vggMeans

/-- `tensorflow.keras.applications.vgg16.preprocess_input` on a 3-D array. -/
def vgg16_preprocess3 (a : List (List (List ℝ))) : List (List (List ℝ)) :=
  a.map fun row => row.map vggChannel

/-- `preprocess_input` on a 4-D (batched) array. -/
def vgg16_preprocess4 (a : List (List (List (List ℝ)))) : List (List (List (List ℝ))) :=
  a.map vgg16_preprocess3

/-- `preprocess_image` from utils.py lines 45-54: convert to RGB (the `Img`
input), resize to `IMG_SIZE` with `Image.BILINEAR`, take the float array,
apply VGG16 `preprocess_input`, then `np.expand_dims(arr, axis=0)`. -/
def preprocess_image (sampler : Interp → Img → ℕ × ℕ → ℕ → ℕ → RGB) (img : Img) :
    List (List (List (List ℝ))) :=
  let resized := resize sampler img IMG_SIZE preprocessResample
  [vgg16_preprocess3 (imgToArr resized)]

/-- `_preprocess` from streamlit_app_new.py lines 122-133: convert to RGB,
resize to `IMAGE_SIZE` with the library-default filter, take the float array,
`np.expand_dims(arr, axis=0)`, then `preprocess_input` on the 4-D batch. -/
def app_preprocess (sampler : Interp → Img → ℕ × ℕ → ℕ → ℕ → RGB) (img : Img) :
    List (List (List (List ℝ))) :=
  let resized := resize sampler img IMAGE_SIZE appResample
  vgg16_preprocess4 [imgToArr resized]

/-- A 4-D nested list has shape `(n, h, w, c)`. -/
def hasShape4 (t : List (List (List (List ℝ)))) (n h w c : ℕ) : Prop :=
  t.length = n ∧ ∀ b ∈ t, b.length = h ∧ ∀ row ∈ b, row.length = w ∧
    ∀ px ∈ row, px.length = c

/-- `iter_content(chunk_size=8192)` (streamlit_app_new.py line 115): the
response body split into successive chunks of at most 8192 bytes. -/
def chunks8192 : List ℕ → List (List ℕ)
  | [] => []
  | x :: xs => ((x :: xs).take 8192) :: chunks8192 ((x :: xs).drop 8192)
termination_by l => l.length
decreasing_by simp [List.length_drop]; omega

/-- The filesystem as seen through `local_path`: the model file's bytes,
if the file exists. -/
structure Fs where
  modelFile : Option (List ℕ)

/-- Deployment configuration: `MODEL_URL` (an empty string models a blank
secret, the `if not MODEL_URL` case) and the bytes the URL serves
(`none` models a failing HTTP GET). -/
structure ProvisionConfig where
  modelUrl : String
  remote : Option (List ℕ)

/-- The `FileNotFoundError` of streamlit_app_new.py lines 93-106 (the
remediation text is presentation; the path-naming head line is kept). -/
def notFoundMsg (path : String) : String :=
  "Model file not found at: " ++ path

/-- The re-raised `FileNotFoundError` of streamlit_app_new.py line 120. -/
def downloadFailMsg (url : String) : String :=
  "Failed to download model from " ++ url

/-- `_ensure_model_present` from streamlit_app_new.py lines 86-120: return if
the file exists; raise `FileNotFoundError` if it is missing and `MODEL_URL`
is blank; otherwise stream the body to disk in 8192-byte chunks (writing each
non-empty chunk, `if chunk:`), re-raising download failures. -/
def ensure_model_present (cfg : ProvisionConfig) (fs : Fs) (localPath : String) :
    Except String Fs :=
  match fs.modelFile with
  | some _ => .ok fs
  | none =>
    if cfg.modelUrl = "" then .error (notFoundMsg localPath)
    else
      match cfg.remote with
      | none => .error (downloadFailMsg cfg.modelUrl)
      | some bytes =>
        .ok ⟨some (((chunks8192 bytes).filter fun c => !c.isEmpty).flatten)⟩

/-- `get_model` from streamlit_app_new.py lines 142-151: ensure the file is
present, then deserialize it (`load_model` reads the bytes on disk). -/
def get_model (cfg : ProvisionConfig) (fs : Fs) (localPath : String) :
    Except String (List ℕ) :=
  match ensure_model_present cfg fs localPath with
  | .error e => .error e
  | .ok fs' =>
    match fs'.modelFile with
    | some bytes => .ok bytes
    | none => .error (notFoundMsg localPath)

/-! ### Infrastructure lemmas -/

theorem LABELS_length : LABELS.length = 4 := rfl

theorem argmaxAux_invariant (xs : List ℝ) :
    ∀ (pfx : List ℝ) (bi : ℕ) (bv : ℝ),
      bi < pfx.length →
      pfx.getD bi 0 = bv →
      (∀ j < pfx.length, pfx.getD j 0 ≤ bv) →
      (∀ j < bi, pfx.getD j 0 < bv) →
      argmaxAux bi bv pfx.length xs < (pfx ++ xs).length ∧
      (∀ j < (pfx ++ xs).length,
        (pfx ++ xs).getD j 0 ≤ (pfx ++ xs).getD (argmaxAux bi bv pfx.length xs) 0) ∧
      (∀ j < argmaxAux bi bv pfx.length xs,
        (pfx ++ xs).getD j 0 < (pfx ++ xs).getD (argmaxAux bi bv pfx.length xs) 0) := by
  induction xs with
  | nil =>
    intro pfx bi bv hbi hval hle hfirst
    simp only [argmaxAux, List.append_nil]
    refine ⟨hbi, ?_, ?_⟩
    · intro j hj; rw [hval]; exact hle j hj
    · intro j hj; rw [hval]; exact hfirst j hj
  | cons x xs ih =>
    intro pfx bi bv hbi hval hle hfirst
    have hcons : pfx ++ x :: xs = (pfx ++ [x]) ++ xs := by
      rw [List.append_assoc, List.singleton_append]
    have hlen1 : (pfx ++ [x]).length = pfx.length + 1 := by
      simp
    have hx : (pfx ++ [x]).getD pfx.length 0 = x := by
      rw [List.getD_append_right _ _ _ _ le_rfl, Nat.sub_self]
      rfl
    have hkeep : ∀ j, j < pfx.length → (pfx ++ [x]).getD j 0 = pfx.getD j 0 := by
      intro j hj; exact List.getD_append _ _ _ _ hj
    rw [hcons]
    simp only [argmaxAux]
    by_cases hlt : bv < x
    · rw [if_pos hlt]
      have := ih (pfx ++ [x]) pfx.length x
        (by rw [hlen1]; exact Nat.lt_succ_self _)
        hx
        (by
          intro j hj
          rw [hlen1] at hj
          rcases Nat.lt_succ_iff_lt_or_eq.mp hj with hj' | hj'
          · rw [hkeep j hj']; exact le_of_lt (lt_of_le_of_lt (hle j hj') hlt)
          · rw [hj', hx])
        (by
          intro j hj
          rw [hkeep j hj]
          exact lt_of_le_of_lt (hle j hj) hlt)
      rw [hlen1] at this
      exact this
    · rw [if_neg hlt]
      have := ih (pfx ++ [x]) bi bv
        (by rw [hlen1]; exact Nat.lt_succ_of_lt hbi)
        (by rw [hkeep bi hbi]; exact hval)
        (by
          intro j hj
          rw [hlen1] at hj
          rcases Nat.lt_succ_iff_lt_or_eq.mp hj with hj' | hj'
          · rw [hkeep j hj']; exact hle j hj'
          · rw [hj', hx]; exact not_lt.mp hlt)
        (by
          intro j hj
          rw [hkeep j (lt_trans hj hbi)]
          exact hfirst j hj)
      rw [hlen1] at this
      exact this

theorem argmax_spec (p : List ℝ) (hp : p ≠ []) :
    argmax p < p.length ∧
    (∀ j < p.length, p.getD j 0 ≤ p.getD (argmax p) 0) ∧
    (∀ j < argmax p, p.getD j 0 < p.getD (argmax p) 0) := by
  cases p with
  | nil => exact absurd rfl hp
  | cons x xs =>
    have := argmaxAux_invariant xs [x] 0 x (by simp) rfl
      (by intro j hj; have hj0 : j = 0 := by simpa using hj
          subst hj0; simp)
      (by intro j hj; omega)
    simpa [argmax] using this

theorem argmaxAux_map (f : ℝ → ℝ) (hf : ∀ a b : ℝ, a < b ↔ f a < f b) (xs : List ℝ) :
    ∀ (bi : ℕ) (bv : ℝ) (i : ℕ), argmaxAux bi (f bv) i (xs.map f) = argmaxAux bi bv i xs := by
  induction xs with
  | nil => intro bi bv i; rfl
  | cons x xs ih =>
    intro bi bv i
    simp only [List.map_cons, argmaxAux]
    by_cases h : bv < x
    · rw [if_pos ((hf bv x).mp h), if_pos h, ih]
    · rw [if_neg (fun hc => h ((hf bv x).mpr hc)), if_neg h, ih]

theorem argmax_map (f : ℝ → ℝ) (hf : ∀ a b : ℝ, a < b ↔ f a < f b) (p : List ℝ) :
    argmax (p.map f) = argmax p := by
  cases p with
  | nil => rfl
  | cons x xs =>
    simp only [List.map_cons, argmax]
    exact argmaxAux_map f hf xs 0 x 1

theorem softmax_eq_map (p : List ℝ) :
    softmax p = p.map fun x =>
      Real.exp (x - maxVal p) / ((p.map fun x => Real.exp (x - maxVal p)).sum) := by
  simp [softmax, List.map_map, Function.comp]

theorem sum_map_div (l : List ℝ) (c : ℝ) : (l.map fun y => y / c).sum = l.sum / c := by
  induction l with
  | nil => simp
  | cons x xs ih => simp [ih, add_div]

theorem exps_sum_pos (p : List ℝ) (hp : p ≠ []) :
    0 < ((p.map fun x => Real.exp (x - maxVal p)).sum) := by
  apply List.sum_pos
  · intro y hy
    obtain ⟨x, _, rfl⟩ := List.mem_map.mp hy
    exact Real.exp_pos _
  · simpa using hp

theorem softmax_length (p : List ℝ) : (softmax p).length = p.length := by
  simp [softmax]

theorem softmax_sum (p : List ℝ) (hp : p ≠ []) : (softmax p).sum = 1 := by
  have hS := exps_sum_pos p hp
  simp only [softmax]
  rw [sum_map_div]
  exact div_self (ne_of_gt hS)

theorem softmax_mem_bounds (p : List ℝ) (hp : p ≠ []) :
    ∀ y ∈ softmax p, 0 ≤ y ∧ y ≤ 1 := by
  have hS := exps_sum_pos p hp
  intro y hy
  rw [softmax_eq_map] at hy
  obtain ⟨x, hx, rfl⟩ := List.mem_map.mp hy
  constructor
  · exact div_nonneg (le_of_lt (Real.exp_pos _)) (le_of_lt hS)
  · rw [div_le_one hS]
    exact List.single_le_sum
      (by intro a ha; obtain ⟨z, _, rfl⟩ := List.mem_map.mp ha; exact le_of_lt (Real.exp_pos _))
      _ (List.mem_map.mpr ⟨x, hx, rfl⟩)

theorem argmax_softmax (p : List ℝ) (hp : p ≠ []) : argmax (softmax p) = argmax p := by
  have hS := exps_sum_pos p hp
  rw [softmax_eq_map]
  refine argmax_map _ (fun a b => ?_) p
  constructor
  · intro h
    exact (div_lt_div_iff_of_pos_right hS).mpr (Real.exp_lt_exp.mpr (by linarith))
  · intro h
    have := Real.exp_lt_exp.mp ((div_lt_div_iff_of_pos_right hS).mp h)
    linarith

theorem shouldNormalize_nil : shouldNormalize [] := by
  left
  simp only [np_allclose_one, List.sum_nil, allcloseTol, np_atol, np_rtol, abs_one]
  rw [zero_sub, abs_neg, abs_one]
  norm_num

theorem postprocess_nil : postprocess_prediction [] = .error zeroSizeMsg := by
  unfold postprocess_prediction
  rw [if_pos shouldNormalize_nil]
  rfl

theorem probsOf_length (p : List ℝ) : (probsOf p).length = p.length := by
  unfold probsOf
  by_cases hs : shouldNormalize p
  · rw [if_pos hs]; exact softmax_length p
  · rw [if_neg hs]

theorem argmax_probsOf (p : List ℝ) (hne : p ≠ []) : argmax (probsOf p) = argmax p := by
  unfold probsOf
  by_cases hs : shouldNormalize p
  · rw [if_pos hs]; exact argmax_softmax p hne
  · rw [if_neg hs]

theorem normBranch_eq (p : List ℝ) (hne : p ≠ []) :
    (if shouldNormalize p then normalizeStep p else Except.ok p) = Except.ok (probsOf p) := by
  unfold probsOf normalizeStep
  by_cases hs : shouldNormalize p
  · rw [if_pos hs, if_pos hs, if_neg (by simp [hne])]
  · rw [if_neg hs, if_neg hs]

theorem postprocess_eq_of_len (p : List ℝ) (h : p.length = 4) :
    postprocess_prediction p =
      .ok (LABELS.getD (argmax p) "", (probsOf p).getD (argmax p) 0, probsOf p) := by
  have hne : p ≠ [] := by
    intro hnil; rw [hnil] at h; simp at h
  unfold postprocess_prediction
  rw [normBranch_eq p hne]
  show (if LABELS.length ≠ (probsOf p).length then _ else _) = _
  rw [if_neg (by rw [probsOf_length p, h, LABELS_length]; simp), argmax_probsOf p hne]

theorem postprocess_len_ne (p : List ℝ) (hne : p ≠ []) (h4 : p.length ≠ 4) :
    postprocess_prediction p = .error (mismatchMsg p.length) := by
  unfold postprocess_prediction
  rw [normBranch_eq p hne]
  show (if LABELS.length ≠ (probsOf p).length then _ else _) = _
  rw [if_pos (by rw [probsOf_length p, LABELS_length]; omega), probsOf_length p]

theorem postprocess_ok_iff (p : List ℝ) :
    (∃ r, postprocess_prediction p = .ok r) ↔ p.length = 4 := by
  constructor
  · rintro ⟨r, hr⟩
    by_contra h4
    by_cases hne : p = []
    · rw [hne, postprocess_nil] at hr; simp at hr
    · rw [postprocess_len_ne p hne h4] at hr; simp at hr
  · intro h
    exact ⟨_, postprocess_eq_of_len p h⟩

theorem not_shouldNormalize_iff (p : List ℝ) :
    ¬ shouldNormalize p ↔ np_allclose_one p.sum ∧ ∀ x ∈ p, 0 ≤ x := by
  unfold shouldNormalize
  push_neg
  simp only [not_lt]

theorem allcloseTol_nonneg : (0 : ℝ) ≤ allcloseTol := by
  unfold allcloseTol np_atol np_rtol
  rw [abs_one]
  norm_num

theorem probsOf_bounds (p : List ℝ) (hne : p ≠ []) :
    |(probsOf p).sum - 1| ≤ allcloseTol ∧
    ∀ x ∈ probsOf p, 0 ≤ x ∧ x ≤ 1 + allcloseTol := by
  have htol := allcloseTol_nonneg
  unfold probsOf
  by_cases hs : shouldNormalize p
  · rw [if_pos hs, softmax_sum p hne]
    refine ⟨by simpa using htol, ?_⟩
    · intro x hx
      obtain ⟨h0, h1⟩ := softmax_mem_bounds p hne x hx
      exact ⟨h0, by linarith⟩
  · rw [if_neg hs]
    obtain ⟨hclose, hnn⟩ := (not_shouldNormalize_iff p).mp hs
    refine ⟨hclose, ?_⟩
    intro x hx
    refine ⟨hnn x hx, ?_⟩
    have hxsum : x ≤ p.sum := List.single_le_sum hnn x hx
    have hsum : p.sum ≤ 1 + allcloseTol := by
      have := (abs_le.mp hclose).2
      linarith
    linarith

theorem getD_mem_of_lt {l : List ℝ} {n : ℕ} (h : n < l.length) : l.getD n 0 ∈ l := by
  rw [List.getD_eq_getElem l 0 h]
  exact List.getElem_mem h

theorem chunks8192_mem (l : List ℕ) : ∀ c ∈ chunks8192 l, c ≠ [] ∧ c.length ≤ 8192 := by
  induction l using chunks8192.induct with
  | case1 => intro c hc; simp [chunks8192] at hc
  | case2 x xs ih =>
    intro c hc
    rw [chunks8192] at hc
    rcases List.mem_cons.mp hc with hc' | hc'
    · subst hc'
      constructor
      · intro hnil
        have := congrArg List.length hnil
        simp [List.length_take] at this
      · simp [List.length_take]
    · exact ih c hc'

theorem chunks8192_flatten (l : List ℕ) :
    ((chunks8192 l).filter fun c => !c.isEmpty).flatten = l := by
  induction l using chunks8192.induct with
  | case1 => simp [chunks8192]
  | case2 x xs ih =>
    rw [chunks8192]
    have hne : ((x :: xs).take 8192) ≠ [] := by
      intro hnil
      have := congrArg List.length hnil
      simp [List.length_take] at this
    rw [List.filter_cons_of_pos (by simp), List.flatten_cons, ih,
      List.take_append_drop]

theorem shape3_of_img (img : Img) :
    (vgg16_preprocess3 (imgToArr img)).length = img.height ∧
    ∀ row ∈ vgg16_preprocess3 (imgToArr img), row.length = img.width ∧
      ∀ px ∈ row, px.length = 3 := by
  unfold vgg16_preprocess3 imgToArr
  refine ⟨by simp, ?_⟩
  intro row hrow
  simp only [List.mem_map] at hrow
  obtain ⟨row0, hrow0, rfl⟩ := hrow
  obtain ⟨y, _, rfl⟩ := hrow0
  refine ⟨by simp, ?_⟩
  intro px hpx
  simp only [List.map_map, List.mem_map] at hpx
  obtain ⟨x, _, rfl⟩ := hpx
  rfl

/-! ### The claims -/

/-- C1, counterexample: the claim fails on the app's inline postprocessing.
`_postprocess` (streamlit_app_new.py lines 135-140) performs no validation at
all: on the length-5 vector `[9, 0, 0, 0, 1]` it returns the `glioma` result
successfully instead of failing with a descriptive error. -/
theorem c1_counterexample_app_accepts_length_5 :
    app_postprocess [(9 : ℝ), 0, 0, 0, 1] =
      .ok ("glioma",
        [("glioma", 9), ("meningioma", 0), ("notumor", 0), ("pituitary", 0)]) := by
  have ha : argmax [(9 : ℝ), 0, 0, 0, 1] = 0 := by norm_num [argmax, argmaxAux]
  unfold app_postprocess
  rw [ha]
  rfl

/-- C1, amended: `postprocess_prediction` (utils.py) succeeds exactly on
vectors of length 4; every non-empty vector of a different length fails
deterministically with the descriptive label-mismatch `ValueError`, and the
empty vector fails deterministically inside the renormalization step with
numpy's zero-size reduction error. The app's inline `_postprocess` validates
nothing (see the counterexample). -/
theorem c1_amended_length_check_only_invariant (p : List ℝ) :
    ((∃ r, postprocess_prediction p = .ok r) ↔ p.length = 4) ∧
    (p ≠ [] → p.length ≠ 4 → postprocess_prediction p = .error (mismatchMsg p.length)) ∧
    postprocess_prediction [] = .error zeroSizeMsg :=
  ⟨postprocess_ok_iff p, fun hne h4 => postprocess_len_ne p hne h4, postprocess_nil⟩

/-- C1, witness: the length-3 vector `[1, 2, 3]` is rejected with the
descriptive error. -/
theorem c1_amended_length_check_only_invariant_witness :
    ([(1 : ℝ), 2, 3] ≠ [] ∧ ([(1 : ℝ), 2, 3].length ≠ 4)) ∧
    postprocess_prediction [(1 : ℝ), 2, 3] = .error (mismatchMsg 3) := by
  refine ⟨⟨by simp, by simp⟩, ?_⟩
  exact (c1_amended_length_check_only_invariant [(1 : ℝ), 2, 3]).2.1 (by simp) (by simp)

/-- C2: for every decoded RGB image of any resolution, both preprocessing
routines (`preprocess_image` in utils.py and `_preprocess` in
streamlit_app_new.py) produce a 4-D tensor of shape (1, 224, 224, 3),
whatever the resampling kernel computes. -/
theorem c2_preprocess_tensor_shape (sampler : Interp → Img → ℕ × ℕ → ℕ → ℕ → RGB)
    (img : Img) :
    hasShape4 (preprocess_image sampler img) 1 224 224 3 ∧
    hasShape4 (app_preprocess sampler img) 1 224 224 3 := by
  constructor
  · refine ⟨rfl, ?_⟩
    intro b hb
    rw [show preprocess_image sampler img =
      [vgg16_preprocess3 (imgToArr (resize sampler img IMG_SIZE preprocessResample))] from rfl,
      List.mem_singleton] at hb
    subst hb
    exact shape3_of_img (resize sampler img IMG_SIZE preprocessResample)
  · refine ⟨rfl, ?_⟩
    intro b hb
    rw [show app_preprocess sampler img =
      [vgg16_preprocess3 (imgToArr (resize sampler img IMAGE_SIZE appResample))] from rfl] at hb
    rw [List.mem_singleton] at hb
    subst hb
    exact shape3_of_img (resize sampler img IMAGE_SIZE appResample)

/-- C3, counterexample: the claim fails on the app's inline postprocessing.
`[1, 2, 3, 0.5]` is not a valid probability distribution, yet `_postprocess`
(streamlit_app_new.py lines 135-140) returns its values unchanged instead of
applying the exponential normalization. -/
theorem c3_counterexample_app_never_renormalizes :
    ¬ isValidProbDistSpec [(1 : ℝ), 2, 3, 0.5] ∧
    app_postprocess [(1 : ℝ), 2, 3, 0.5] =
      .ok ("notumor",
        [("glioma", 1), ("meningioma", 2), ("notumor", 3), ("pituitary", 0.5)]) := by
  constructor
  · rintro ⟨hclose, -⟩
    unfold np_allclose_one allcloseTol np_atol np_rtol at hclose
    rw [abs_one, abs_le] at hclose
    norm_num [List.sum_cons, List.sum_nil] at hclose
  · have ha : argmax [(1 : ℝ), 2, 3, 0.5] = 2 := by norm_num [argmax, argmaxAux]
    unfold app_postprocess
    rw [ha]
    rfl

/-- C3, amended: `postprocess_prediction` (utils.py) applies the stable
exponential normalization exactly when the input is not already a valid
probability distribution — the code's guard is equivalent to the spec's
"sum ≈ 1 and no negative entry" condition — and passes the vector through
unchanged otherwise. The app's inline `_postprocess` never renormalizes
(see the counterexample). -/
theorem c3_amended_normalize_iff_not_distribution (p : List ℝ) (h : p.length = 4) :
    (shouldNormalize p ↔ ¬ isValidProbDistSpec p) ∧
    (isValidProbDistSpec p →
      Except.map (fun r => r.2.2) (postprocess_prediction p) = .ok p) ∧
    (¬ isValidProbDistSpec p →
      Except.map (fun r => r.2.2) (postprocess_prediction p) = .ok (softmax p)) := by
  have hne : p ≠ [] := by intro hnil; rw [hnil] at h; simp at h
  have hiff : ¬ shouldNormalize p ↔ isValidProbDistSpec p := by
    unfold isValidProbDistSpec
    exact not_shouldNormalize_iff p
  refine ⟨(not_iff_comm.mp hiff).symm, ?_, ?_⟩
  · intro hvalid
    rw [postprocess_eq_of_len p h]
    unfold probsOf
    rw [if_neg (hiff.mpr hvalid)]
    rfl
  · intro hinvalid
    rw [postprocess_eq_of_len p h]
    unfold probsOf
    rw [if_pos (of_not_not (mt hiff.mp hinvalid))]
    rfl

/-- C3, witness: `[0.1, 0.2, 0.3, 0.4]` is a valid distribution and is passed
through unchanged. -/
theorem c3_amended_normalize_iff_not_distribution_witness :
    ([(0.1 : ℝ), 0.2, 0.3, 0.4].length = 4) ∧
    (shouldNormalize [(0.1 : ℝ), 0.2, 0.3, 0.4] ↔
      ¬ isValidProbDistSpec [(0.1 : ℝ), 0.2, 0.3, 0.4]) ∧
    (isValidProbDistSpec [(0.1 : ℝ), 0.2, 0.3, 0.4] →
      Except.map (fun r => r.2.2) (postprocess_prediction [(0.1 : ℝ), 0.2, 0.3, 0.4]) =
        .ok [(0.1 : ℝ), 0.2, 0.3, 0.4]) ∧
    (¬ isValidProbDistSpec [(0.1 : ℝ), 0.2, 0.3, 0.4] →
      Except.map (fun r => r.2.2) (postprocess_prediction [(0.1 : ℝ), 0.2, 0.3, 0.4]) =
        .ok (softmax [(0.1 : ℝ), 0.2, 0.3, 0.4])) := by
  refine ⟨by simp, ?_⟩
  have h := c3_amended_normalize_iff_not_distribution [(0.1 : ℝ), 0.2, 0.3, 0.4] (by simp)
  exact ⟨h.1, h.2.1, h.2.2⟩

/-- C4, counterexample: `[1.0005, 0, 0, 0]` is inside the allclose tolerance,
so it is passed through unchanged and the returned probability and confidence
are `1.0005`, outside `[0, 1]`. -/
theorem c4_counterexample_confidence_above_one :
    postprocess_prediction [(1.0005 : ℝ), 0, 0, 0] =
      .ok ("glioma", 1.0005, [1.0005, 0, 0, 0]) ∧ ¬ ((1.0005 : ℝ) ≤ 1) := by
  constructor
  · have hns : ¬ shouldNormalize [(1.0005 : ℝ), 0, 0, 0] := by
      rw [not_shouldNormalize_iff]
      constructor
      · unfold np_allclose_one allcloseTol np_atol np_rtol
        rw [abs_one, abs_le]
        norm_num [List.sum_cons, List.sum_nil]
      · intro x hx
        simp only [List.mem_cons, List.not_mem_nil, or_false] at hx
        rcases hx with rfl | rfl | rfl | rfl <;> norm_num
    have ha : argmax [(1.0005 : ℝ), 0, 0, 0] = 0 := by norm_num [argmax, argmaxAux]
    rw [postprocess_eq_of_len _ (by simp)]
    unfold probsOf
    rw [if_neg hns, ha]
    rfl
  · norm_num

/-- C4, amended: for every length-4 vector, `postprocess_prediction` succeeds
and returns probabilities that sum to 1 within the allclose tolerance
(0.001 + 0.00001·|1|), with every probability and the confidence lying in
[0, 1 + tolerance] — but not necessarily in [0, 1], as the counterexample
shows. -/
theorem c4_amended_output_bounds (p : List ℝ) (h : p.length = 4) :
    ∃ label conf probs, postprocess_prediction p = .ok (label, conf, probs) ∧
      |probs.sum - 1| ≤ allcloseTol ∧
      (∀ x ∈ probs, 0 ≤ x ∧ x ≤ 1 + allcloseTol) ∧
      0 ≤ conf ∧ conf ≤ 1 + allcloseTol := by
  have hne : p ≠ [] := by intro hnil; rw [hnil] at h; simp at h
  obtain ⟨hsum, hmem⟩ := probsOf_bounds p hne
  have hidx : argmax p < (probsOf p).length := by
    rw [probsOf_length]
    exact h ▸ (argmax_spec p hne).1
  have hconf := hmem _ (getD_mem_of_lt hidx)
  exact ⟨_, _, _, postprocess_eq_of_len p h, hsum, hmem, hconf.1, hconf.2⟩

/-- C4, witness: the uniform distribution is accepted with in-bounds output. -/
theorem c4_amended_output_bounds_witness :
    ([(0.25 : ℝ), 0.25, 0.25, 0.25].length = 4) ∧
    (∃ label conf probs,
      postprocess_prediction [(0.25 : ℝ), 0.25, 0.25, 0.25] = .ok (label, conf, probs) ∧
      |probs.sum - 1| ≤ allcloseTol ∧
      (∀ x ∈ probs, 0 ≤ x ∧ x ≤ 1 + allcloseTol) ∧
      0 ≤ conf ∧ conf ≤ 1 + allcloseTol) :=
  ⟨by simp, c4_amended_output_bounds [(0.25 : ℝ), 0.25, 0.25, 0.25] (by simp)⟩

/-- C5: `[0.1, 0.2, 0.3, 0.4]` already sums to 1, so the guard does not fire
and postprocessing returns label index 3 ("pituitary") with confidence 0.4
and the vector unchanged. -/
theorem c5_distribution_passed_through :
    ¬ shouldNormalize [(0.1 : ℝ), 0.2, 0.3, 0.4] ∧
    postprocess_prediction [(0.1 : ℝ), 0.2, 0.3, 0.4] =
      .ok ("pituitary", 0.4, [0.1, 0.2, 0.3, 0.4]) := by
  have hns : ¬ shouldNormalize [(0.1 : ℝ), 0.2, 0.3, 0.4] := by
    rw [not_shouldNormalize_iff]
    constructor
    · unfold np_allclose_one allcloseTol np_atol np_rtol
      rw [abs_one, abs_le]
      norm_num [List.sum_cons, List.sum_nil]
    · intro x hx
      simp only [List.mem_cons, List.not_mem_nil, or_false] at hx
      rcases hx with rfl | rfl | rfl | rfl <;> norm_num
  have ha : argmax [(0.1 : ℝ), 0.2, 0.3, 0.4] = 3 := by norm_num [argmax, argmaxAux]
  refine ⟨hns, ?_⟩
  rw [postprocess_eq_of_len _ (by simp)]
  unfold probsOf
  rw [if_neg hns, ha]
  rfl

/-- C6: `[1, 2, 3, 0.5]` does not sum to ≈ 1, so the guard fires, the stable
exponential normalization is applied, and the top label is index 2
("notumor"). -/
theorem c6_raw_scores_renormalized :
    shouldNormalize [(1 : ℝ), 2, 3, 0.5] ∧
    postprocess_prediction [(1 : ℝ), 2, 3, 0.5] =
      .ok ("notumor", (softmax [(1 : ℝ), 2, 3, 0.5]).getD 2 0,
        softmax [(1 : ℝ), 2, 3, 0.5]) := by
  have hs : shouldNormalize [(1 : ℝ), 2, 3, 0.5] := by
    left
    unfold np_allclose_one allcloseTol np_atol np_rtol
    rw [abs_one]
    intro hcontra
    rw [abs_le] at hcontra
    norm_num [List.sum_cons, List.sum_nil] at hcontra
  have ha : argmax [(1 : ℝ), 2, 3, 0.5] = 2 := by norm_num [argmax, argmaxAux]
  refine ⟨hs, ?_⟩
  rw [postprocess_eq_of_len _ (by simp)]
  unfold probsOf
  rw [if_pos hs, ha]
  rfl

/-- C7: for every length-4 vector, both postprocessing routines return the
label at the argmax index of the input (renormalization cannot change the
argmax because exponentiation and division by the positive sum are strictly
monotone), the argmax index is in range, it attains the maximum, and every
earlier index holds a strictly smaller value (first occurrence wins on
ties). -/
theorem c7_argmax_label_first_occurrence_wins (p : List ℝ) (h : p.length = 4) :
    Except.map (fun r => r.1) (postprocess_prediction p) =
      .ok (LABELS.getD (argmax p) "") ∧
    app_postprocess p =
      .ok (LABELS.getD (argmax p) "",
        (List.range LABELS.length).map fun i => (LABELS.getD i "", p.getD i 0)) ∧
    argmax p < p.length ∧
    (∀ j < p.length, p.getD j 0 ≤ p.getD (argmax p) 0) ∧
    (∀ j < argmax p, p.getD j 0 < p.getD (argmax p) 0) := by
  have hne : p ≠ [] := by intro hnil; rw [hnil] at h; simp at h
  obtain ⟨hlt, hle, hfirst⟩ := argmax_spec p hne
  refine ⟨?_, ?_, hlt, hle, hfirst⟩
  · rw [postprocess_eq_of_len p h]
    rfl
  · unfold app_postprocess
    rw [if_neg (by simp [hne]), if_neg (by rw [h, LABELS_length]; omega),
      if_neg (by rw [LABELS_length]; omega)]

/-- C7, witness: on the tied vector `[0.1, 0.4, 0.4, 0.1]` the first maximal
index (1, "meningioma") wins. -/
theorem c7_argmax_label_first_occurrence_wins_witness :
    ([(0.1 : ℝ), 0.4, 0.4, 0.1].length = 4) ∧
    (Except.map (fun r => r.1) (postprocess_prediction [(0.1 : ℝ), 0.4, 0.4, 0.1]) =
        .ok (LABELS.getD (argmax [(0.1 : ℝ), 0.4, 0.4, 0.1]) "") ∧
      app_postprocess [(0.1 : ℝ), 0.4, 0.4, 0.1] =
        .ok (LABELS.getD (argmax [(0.1 : ℝ), 0.4, 0.4, 0.1]) "",
          (List.range LABELS.length).map fun i =>
            (LABELS.getD i "", [(0.1 : ℝ), 0.4, 0.4, 0.1].getD i 0)) ∧
      argmax [(0.1 : ℝ), 0.4, 0.4, 0.1] < [(0.1 : ℝ), 0.4, 0.4, 0.1].length ∧
      (∀ j < [(0.1 : ℝ), 0.4, 0.4, 0.1].length,
        [(0.1 : ℝ), 0.4, 0.4, 0.1].getD j 0 ≤
          [(0.1 : ℝ), 0.4, 0.4, 0.1].getD (argmax [(0.1 : ℝ), 0.4, 0.4, 0.1]) 0) ∧
      (∀ j < argmax [(0.1 : ℝ), 0.4, 0.4, 0.1],
        [(0.1 : ℝ), 0.4, 0.4, 0.1].getD j 0 <
          [(0.1 : ℝ), 0.4, 0.4, 0.1].getD (argmax [(0.1 : ℝ), 0.4, 0.4, 0.1]) 0)) ∧
    argmax [(0.1 : ℝ), 0.4, 0.4, 0.1] = 1 :=
  ⟨by simp, c7_argmax_label_first_occurrence_wins [(0.1 : ℝ), 0.4, 0.4, 0.1] (by simp),
    by norm_num [argmax, argmaxAux]⟩

/-- C8: if the model file is absent and `MODEL_URL` is blank, provisioning
fails with the not-found error (a total function: it can neither hang nor
crash ambiguously); if it is absent and a URL is configured and reachable,
the response body is streamed to disk in non-empty chunks of at most 8192
bytes whose concatenation is exactly the remote bytes, and `get_model` then
loads those bytes. -/
theorem c8_model_provisioning (cfg : ProvisionConfig) (fs : Fs) (path : String)
    (habsent : fs.modelFile = none) :
    (cfg.modelUrl = "" →
      ensure_model_present cfg fs path = .error (notFoundMsg path)) ∧
    (∀ bytes, cfg.modelUrl ≠ "" → cfg.remote = some bytes →
      ensure_model_present cfg fs path = .ok ⟨some bytes⟩ ∧
      get_model cfg fs path = .ok bytes ∧
      ∀ c ∈ chunks8192 bytes, c ≠ [] ∧ c.length ≤ 8192) := by
  have h1 : ensure_model_present cfg fs path =
      if cfg.modelUrl = "" then .error (notFoundMsg path)
      else
        match cfg.remote with
        | none => .error (downloadFailMsg cfg.modelUrl)
        | some bytes =>
          .ok ⟨some (((chunks8192 bytes).filter fun c => !c.isEmpty).flatten)⟩ := by
    unfold ensure_model_present
    rw [habsent]
  constructor
  · intro hurl
    rw [h1, if_pos hurl]
  · intro bytes hurl hremote
    have h2 : (match cfg.remote with
        | none => Except.error (downloadFailMsg cfg.modelUrl)
        | some bytes =>
          Except.ok (⟨some (((chunks8192 bytes).filter fun c => !c.isEmpty).flatten)⟩ : Fs)) =
        Except.ok (⟨some (((chunks8192 bytes).filter fun c => !c.isEmpty).flatten)⟩ : Fs) := by
      rw [hremote]
    have hens : ensure_model_present cfg fs path = .ok ⟨some bytes⟩ := by
      rw [h1, if_neg hurl, h2, chunks8192_flatten]
    refine ⟨hens, ?_, chunks8192_mem bytes⟩
    unfold get_model
    rw [hens]

/-- C8, witness: a blank URL yields the not-found error, and a configured
URL downloads the remote bytes. -/
theorem c8_model_provisioning_witness :
    (Fs.mk none).modelFile = none ∧
    ensure_model_present ⟨"", none⟩ ⟨none⟩ "model.h5" = .error (notFoundMsg "model.h5") ∧
    ensure_model_present ⟨"http://host/m.h5", some [1, 2, 3]⟩ ⟨none⟩ "model.h5" =
      .ok ⟨some [1, 2, 3]⟩ := by
  refine ⟨rfl, ?_, ?_⟩
  · exact (c8_model_provisioning ⟨"", none⟩ ⟨none⟩ "model.h5" rfl).1 rfl
  · exact ((c8_model_provisioning ⟨"http://host/m.h5", some [1, 2, 3]⟩ ⟨none⟩ "model.h5"
      rfl).2 [1, 2, 3] (by decide) rfl).1

/-- C9, counterexample: it is not the case that both preprocessing routines
resize with the bilinear filter: utils.py passes `Image.BILINEAR`, but the
app's `_preprocess` resize call passes no filter, so PIL's default (bicubic,
and in no Pillow version bilinear) applies. -/
theorem c9_counterexample_app_resample_not_bilinear :
    ¬ (preprocessResample = Interp.bilinear ∧ appResample = Interp.bilinear) := by
  decide

/-- C9, amended: both routines resize every input to the fixed 224×224
resolution; `preprocess_image` (utils.py) resamples with the deterministic
bilinear filter, while the app's `_preprocess` uses the library default
(bicubic). -/
theorem c9_amended_resize_filters (sampler : Interp → Img → ℕ × ℕ → ℕ → ℕ → RGB)
    (img : Img) :
    preprocessResample = Interp.bilinear ∧
    appResample = Interp.bicubic ∧
    IMG_SIZE = (224, 224) ∧
    IMAGE_SIZE = (224, 224) ∧
    (resize sampler img IMG_SIZE preprocessResample).width = 224 ∧
    (resize sampler img IMG_SIZE preprocessResample).height = 224 ∧
    (resize sampler img IMAGE_SIZE appResample).width = 224 ∧
    (resize sampler img IMAGE_SIZE appResample).height = 224 :=
  ⟨rfl, rfl, rfl, rfl, rfl, rfl, rfl, rfl⟩

/-- C10: `postprocess_prediction` accepts an ndarray of any shape: anything
that is not already `(1, C)` is reshaped to `(1, -1)`, so the routine always
acts on the flattened data — it succeeds exactly when the total element count
is 4 (for instance on a 2×2 array), and the length-mismatch error, raised
after the normalization heuristic, reports the flattened length. -/
theorem c10_any_shape_flattened (a : NdArray) :
    postprocess_prediction_nd a = postprocess_prediction a.data ∧
    ((∃ r, postprocess_prediction_nd a = .ok r) ↔ a.data.length = 4) := by
  have hrow : ndRow (if a.shape.length ≠ 2 ∨ a.shape.headD 0 ≠ 1 then reshapeRow a else a) =
      a.data := by
    by_cases hcond : a.shape.length ≠ 2 ∨ a.shape.headD 0 ≠ 1
    · rw [if_pos hcond]
      unfold ndRow reshapeRow
      exact List.take_length a.data
    · rw [if_neg hcond]
      push_neg at hcond
      obtain ⟨hlen2, hhead⟩ := hcond
      obtain ⟨s0, s1, hshape⟩ := List.length_eq_two.mp hlen2
      have hs0 : s0 = 1 := by rw [hshape] at hhead; exact hhead
      have hsize : a.data.length = s1 := by
        have := a.size_eq
        rw [hshape, hs0] at this
        simpa using this
      unfold ndRow
      rw [hshape]
      show a.data.take s1 = a.data
      rw [← hsize]
      exact List.take_length a.data
  have hmain : postprocess_prediction_nd a = postprocess_prediction a.data := by
    unfold postprocess_prediction_nd
    rw [hrow]
  exact ⟨hmain, by rw [hmain]; exact postprocess_ok_iff a.data⟩

end BrainTumor
